import Mathlib

/-!
Verification of the VibeCheckNYC query pipeline.

This file gives a shallow embedding, in Lean 4, of the query-side search
pipeline of the VibeCheckNYC repository and proves the behavioural claims
made by its specification against that embedding.

Embedding conventions:
* Python strings are modelled as `List Char` (`Str`); `str.lower()` is
  `Char.toLower` mapped over the list, `str.split()` is `pySplit`,
  `str.strip()` is `pyStrip`, `" ".join` is `joinSp`, and the substring
  test `a in b` is `isSubStr`.
* Python `None` is `Option.none`; Python truthiness of an optional string
  (`if neighborhood_filter:`) is `pyTruthyStr`.
* The two pretrained embedding models called by `encode_query` are external
  collaborators; they are passed in as an abstract `EncoderModels` record.
  An image-decode/inference exception (the `except` branch in the source)
  is modelled as the image model returning `none`.
* The FAISS index, the `meta_ids` array and the SQLite database are
  external collaborators, passed in as functions (`faissSearch`, `meta`,
  `db`); similarity scores are carried through without arithmetic, so they
  are a type parameter `σ`.
-/

set_option maxRecDepth 8192

namespace VibeCheck

/-- Python strings are modelled as lists of characters. -/
abbrev Str := List Char

/-- Embedding of Python `str.lower()` (ASCII case folding, as used by the
keyword matching in the source). -/
def toLowerStr (s : Str) : Str := s.map Char.toLower

/-- Accumulator-based worker for `pySplit`: `acc` holds the characters of the
current (reversed) token. -/
def pySplitAux (acc : Str) : Str → List Str
  | [] => if acc.isEmpty then [] else [acc.reverse]
  | c :: rest =>
    if c.isWhitespace then
      (if acc.isEmpty then [] else [acc.reverse]) ++ pySplitAux [] rest
    else pySplitAux (c :: acc) rest

/-- Embedding of Python `str.split()` with no argument: split on runs of
whitespace, dropping empty tokens. -/
def pySplit (s : Str) : List Str := pySplitAux [] s

/-- Embedding of Python `str.strip()`: drop whitespace from both ends. -/
def pyStrip (s : Str) : Str :=
  ((s.dropWhile Char.isWhitespace).reverse.dropWhile Char.isWhitespace).reverse

/-- Embedding of Python `" ".join(ws)`: interleave a single space between the
given strings. -/
def joinSp : List Str → Str
  | [] => []
  | [w] => w
  | w :: x :: ws => w ++ ' ' :: joinSp (x :: ws)

/-- Test whether `n` is a leading segment of `h` (helper for `isSubStr`). -/
def isPrefixStr : Str → Str → Bool
  | [], _ => true
  | _ :: _, [] => false
  | a :: as, b :: bs => a == b && isPrefixStr as bs

/-- Embedding of the Python substring test `n in h` for strings. -/
def isSubStr (n : Str) : Str → Bool
  | [] => isPrefixStr n []
  | c :: t => isPrefixStr n (c :: t) || isSubStr n t

/-- Python truthiness of an optional string: `None` and `""` are falsy. -/
def pyTruthyStr : Option Str → Bool
  | none => false
  | some s => !s.isEmpty

/-- Cuisine keywords of `encode_query` in `app/app.py` (boosted to 3x). -/
def CUISINE_KEYWORDS : List Str :=
  (["chinese", "japanese", "korean", "thai", "vietnamese", "indian",
    "filipino", "indonesian", "malaysian", "burmese",
    "italian", "french", "spanish", "greek", "german", "portuguese",
    "polish", "russian",
    "mexican", "peruvian", "brazilian", "colombian", "argentinian", "cuban",
    "middle eastern", "lebanese", "turkish", "moroccan", "ethiopian", "israeli",
    "mediterranean",
    "pizza", "sushi", "burger", "bbq", "steakhouse", "seafood", "ramen",
    "pho", "tapas", "dim sum", "curry", "pasta", "noodles", "dumplings",
    "bagels", "deli", "halal", "soul food", "cajun", "creole",
    "vegetarian", "vegan"]).map String.toList

/-- Vibe/atmosphere keywords of `encode_query` in `app/app.py` (boosted to 2x). -/
def VIBE_KEYWORDS : List Str :=
  (["romantic", "cozy", "intimate", "date", "candlelit", "ambiance", "atmosphere",
    "date night",
    "quiet", "elegant", "fancy", "casual", "fine dining",
    "lively", "energetic", "relaxed", "chill", "vibey", "loud", "noisy",
    "buzzing", "packed",
    "trendy", "hip", "modern", "rustic", "charming", "spacious",
    "bright", "dark", "dimly", "instagram", "instagrammable",
    "outdoor", "patio", "rooftop", "garden", "sidewalk", "alfresco",
    "bar seating", "counter seating",
    "fusion", "authentic", "traditional", "homestyle", "family-style",
    "hidden gem", "local favorite", "hole in the wall",
    "group", "solo", "family", "kids", "friends",
    "brunch", "late night", "quick", "fast", "happy hour"]).map String.toList

/-- Price keywords of `encode_query` in `app/app.py` (boosted to 2x). -/
def PRICE_KEYWORDS : List Str :=
  (["cheap", "affordable", "budget", "inexpensive",
    "expensive", "pricey", "upscale", "high-end",
    "value", "deal", "splurge", "reasonable"]).map String.toList

/-- Embedding of the lexical boosting prelude of `encode_query`
(`app/app.py` lines 154-172): tokenize the lowercased query on whitespace,
collect the tokens that lie in each keyword set, and append the matched
tokens to the text (twice for cuisine, once for vibe and price). The
argument is `Option Str` because the Python parameter defaults to `None`
(`boosted_text = text or ""`). -/
def boostQueryText (text : Option Str) : Str :=
  let boosted := text.getD []
  if boosted.isEmpty then boosted
  else
    let words := pySplit (toLowerStr boosted)
    let cuisine_words := words.filter (fun w => decide (w ∈ CUISINE_KEYWORDS))
    let vibe_words := words.filter (fun w => decide (w ∈ VIBE_KEYWORDS))
    let price_words := words.filter (fun w => decide (w ∈ PRICE_KEYWORDS))
    let b1 := if cuisine_words.isEmpty then boosted
              else boosted ++ ' ' :: joinSp (cuisine_words ++ cuisine_words)
    let b2 := if vibe_words.isEmpty then b1 else b1 ++ ' ' :: joinSp vibe_words
    let b3 := if price_words.isEmpty then b2 else b2 ++ ' ' :: joinSp price_words
    b3

/-- Number of occurrences of the token `w` among the whitespace tokens of the
lowercased text `s` (the term-frequency notion used by the boosting claims). -/
def tokCount (w : Str) (s : Str) : Nat := (pySplit (toLowerStr s)).count w

/-- Apostrophe character (U+0027), spelled via its code point. -/
def apos : Char := Char.ofNat 39

/-- Variation key `hell's kitchen` from `app/neighborhood_mapping.py`. -/
def hellsKitchenVariant : Str := "hell".toList ++ apos :: "s kitchen".toList

/-- Canonical name `Hell's Kitchen` from `app/neighborhood_mapping.py`. -/
def hellsKitchenCanonical : Str := "Hell".toList ++ apos :: "s Kitchen".toList

/-- Embedding of the `NEIGHBORHOOD_VARIATIONS` dict of
`app/neighborhood_mapping.py` as an association list in insertion order
(Python dicts iterate in insertion order, which the substring fallback of
`normalize_neighborhood_query` depends on). -/
def NEIGHBORHOOD_VARIATIONS : List (Str × Str) :=
  [ ("soho".toList, "SoHo".toList),
    ("so ho".toList, "SoHo".toList),
    ("south of houston".toList, "SoHo".toList),
    ("tribeca".toList, "Tribeca".toList),
    ("tri beca".toList, "Tribeca".toList),
    ("triangle below canal".toList, "Tribeca".toList),
    ("west village".toList, "West Village".toList),
    ("greenwich village".toList, "West Village".toList),
    ("the village".toList, "West Village".toList),
    ("east village".toList, "East Village".toList),
    ("ev".toList, "East Village".toList),
    ("lower east side".toList, "Lower East Side".toList),
    ("les".toList, "Lower East Side".toList),
    ("lowereast".toList, "Lower East Side".toList),
    ("upper east side".toList, "Upper East Side".toList),
    ("ues".toList, "Upper East Side".toList),
    ("uppereast".toList, "Upper East Side".toList),
    ("upper west side".toList, "Upper West Side".toList),
    ("uws".toList, "Upper West Side".toList),
    ("upperwest".toList, "Upper West Side".toList),
    ("hells kitchen".toList, hellsKitchenCanonical),
    (hellsKitchenVariant, hellsKitchenCanonical),
    ("clinton".toList, hellsKitchenCanonical),
    ("chelsea".toList, "Chelsea".toList),
    ("gramercy".toList, "Gramercy".toList),
    ("gramercy park".toList, "Gramercy".toList),
    ("murray hill".toList, "Murray Hill".toList),
    ("midtown".toList, "Midtown".toList),
    ("midtown manhattan".toList, "Midtown".toList),
    ("financial district".toList, "Financial District".toList),
    ("fidi".toList, "Financial District".toList),
    ("wall street".toList, "Financial District".toList),
    ("battery park".toList, "Battery Park City".toList),
    ("battery park city".toList, "Battery Park City".toList),
    ("washington heights".toList, "Washington Heights".toList),
    ("wash heights".toList, "Washington Heights".toList),
    ("inwood".toList, "Inwood".toList),
    ("harlem".toList, "Central Harlem".toList),
    ("central harlem".toList, "Central Harlem".toList),
    ("east harlem".toList, "East Harlem".toList),
    ("spanish harlem".toList, "East Harlem".toList),
    ("el barrio".toList, "East Harlem".toList),
    ("morningside heights".toList, "Morningside Heights".toList),
    ("morningside".toList, "Morningside Heights".toList) ]

/-- Embedding of `normalize_neighborhood_query` from
`app/neighborhood_mapping.py`: lowercase and strip the query, return the
canonical name on an exact dictionary match, otherwise the canonical name of
the first variation key (in insertion order) occurring as a substring of the
query, otherwise `none`. -/
def normalize_neighborhood_query (query : Str) : Option Str :=
  let query_lower := pyStrip (toLowerStr query)
  match NEIGHBORHOOD_VARIATIONS.find? (fun p => p.1 == query_lower) with
  | some p => some p.2
  | none =>
    (NEIGHBORHOOD_VARIATIONS.find? (fun p => isSubStr p.1 query_lower)).map (·.2)

/-- Flag set at startup in `app/app.py`; both import branches set it to
`True`. -/
def USE_IMAGE_SEARCH : Bool := true

/-- Dimension of the image half of the combined embedding (`np.zeros(512)`). -/
def zeros512 : List Float := List.replicate 512 (0.0 : Float)

/-- External embedding models used by `encode_query`. `textEmbed` stands for
`text_model.encode` (the sentence encoder); `imageEmbed` stands for the
decode / preprocess / CLIP-encode sequence of the image branch, returning
`none` when that sequence raises (corrupt bytes, unsupported format, model
failure) — exceptions are modelled as `Option`, per the design note of the
spec. -/
structure EncoderModels where
  textEmbed : Str → List Float
  imageEmbed : List UInt8 → Option (List Float)

/-- Embedding of `encode_query` from `app/app.py` (lines 98-196): boost the
text, embed it, embed the image when non-empty image bytes are supplied and
image search is enabled (falling back to a zero vector when the image branch
raises or no image is given), and return the concatenation as a single-row
matrix. -/
def encode_query (M : EncoderModels) (text : Option Str)
    (image_file : Option (List UInt8)) : List (List Float) :=
  let boosted := boostQueryText text
  let text_vec := M.textEmbed boosted
  let img_vec :=
    match image_file with
    | some bytes =>
      if !bytes.isEmpty && USE_IMAGE_SEARCH then
        match M.imageEmbed bytes with
        | some v => v
        | none => zeros512
      else zeros512
    | none => zeros512
  [text_vec ++ img_vec]

/-- Price filter of the `/api/search` route, resolved at the request boundary
into a tagged variant: absent, a single level, or a list of levels. -/
inductive PriceFilter where
  | pfNone : PriceFilter
  | pfSingle (v : Int) : PriceFilter
  | pfList (vs : List Int) : PriceFilter
deriving DecidableEq

/-- Filter-relevant part of a hydrated restaurant record
(`get_restaurant_details`): the `neighborhood` and `price_level` columns,
either of which may be SQL `NULL`. The remaining hydrated fields are carried
unchanged by the assembler and play no role in the claims. -/
structure Restaurant where
  neighborhood : Option Str
  price_level : Option Int
deriving DecidableEq

/-- Embedding of the price test of the `search` loop (`app/app.py` lines
403-411): with no filter every candidate passes; a list filter requires
membership of the hydrated `price_level`; a single-value filter requires
equality; `NULL` `price_level` never matches a non-null filter. -/
def priceKeep : PriceFilter → Option Int → Bool
  | .pfNone, _ => true
  | .pfSingle v, some p => p == v
  | .pfSingle _, none => false
  | .pfList vs, some p => vs.contains p
  | .pfList _, none => false

/-- Embedding of the candidate loop of the `search` route (`app/app.py`
lines 392-419). `meta` is the `meta_ids` array, `db` is
`get_restaurant_details` (returning `none` when the id does not hydrate),
`nf` the resolved neighborhood filter, `pf` the price filter, `acc` the
`results` list built so far. Candidates are `(index, score)` pairs in the
order returned by FAISS; the loop stops as soon as `top_k` results are
accumulated. -/
def assembleLoop {σ : Type} (meta : Nat → Nat) (db : Nat → Option Restaurant)
    (nf : Option Str) (pf : PriceFilter) (top_k : Nat)
    (acc : List (Nat × Restaurant × σ)) : List (Nat × σ) → List (Nat × Restaurant × σ)
  | [] => acc
  | (idx, dist) :: rest =>
    match db (meta idx) with
    | none => assembleLoop meta db nf pf top_k acc rest
    | some details =>
      if pyTruthyStr nf = true ∧ details.neighborhood ≠ nf then
        assembleLoop meta db nf pf top_k acc rest
      else if priceKeep pf details.price_level = false then
        assembleLoop meta db nf pf top_k acc rest
      else
        let acc2 := acc ++ [(meta idx, details, dist)]
        if top_k ≤ acc2.length then acc2
        else assembleLoop meta db nf pf top_k acc2 rest

/-- Candidates of a list that hydrate and pass both filters, in order, each
paired with its hydrated record and score. `assembleLoop` is proved to return
a prefix of this list. -/
def survivors {σ : Type} (meta : Nat → Nat) (db : Nat → Option Restaurant)
    (nf : Option Str) (pf : PriceFilter) (cands : List (Nat × σ)) :
    List (Nat × Restaurant × σ) :=
  cands.filterMap (fun c =>
    match db (meta c.1) with
    | none => none
    | some details =>
      if pyTruthyStr nf = true ∧ details.neighborhood ≠ nf then none
      else if priceKeep pf details.price_level = false then none
      else some (meta c.1, details, c.2))

/-- Embedding of the over-fetch computation of the `search` route
(`app/app.py` line 388): `search_k = top_k * 5 if neighborhood_filter else
top_k`. The price filter is not consulted. -/
def search_k (nf : Option Str) (top_k : Nat) : Nat :=
  if pyTruthyStr nf then top_k * 5 else top_k

/-- Embedding of the retrieval/filter part of the `search` route
(`app/app.py` lines 374-421): resolve the neighborhood filter from the query
text, over-fetch `search_k` candidates from the FAISS index (an external
collaborator, passed as `faissSearch`), and run the filter/hydrate/truncate
loop. -/
def search {σ : Type} (faissSearch : Nat → List (Nat × σ)) (meta : Nat → Nat)
    (db : Nat → Option Restaurant) (query_text : Str) (pf : PriceFilter)
    (top_k : Nat) : List (Nat × Restaurant × σ) :=
  let neighborhood_filter := normalize_neighborhood_query query_text
  let cands := faissSearch (search_k neighborhood_filter top_k)
  assembleLoop meta db neighborhood_filter pf top_k [] cands

/-- Manhattan neighborhood keywords of `generate_embeddings_final.py`
(index-builder side, boosted to 2x). -/
def GEN_NEIGHBORHOOD_KEYWORDS : List Str :=
  (["soho", "tribeca", "chinatown", "financial district", "fidi", "battery park",
    "lower east side", "les", "east village", "west village", "greenwich village",
    "noho", "nolita", "bowery", "chelsea", "flatiron", "gramercy", "union square",
    "midtown", "times square", "hells kitchen", "murray hill", "kips bay",
    "upper east side", "ues", "upper west side", "uws", "morningside heights",
    "harlem", "east harlem", "washington heights", "inwood",
    "manhattan", "downtown", "uptown"]).map String.toList

/-- Venue-type keywords of `generate_embeddings_final.py` (index-builder
side, boosted to 2x). -/
def GEN_VENUE_KEYWORDS : List Str :=
  (["restaurant", "bar", "cafe", "coffee shop", "bakery", "bistro", "brasserie",
    "gastropub", "pub", "tavern", "lounge", "wine bar", "cocktail bar",
    "speakeasy", "dive bar", "sports bar", "brewery", "food hall", "food court",
    "diner", "eatery", "spot", "joint", "taqueria", "pizzeria", "trattoria",
    "osteria", "ramen shop", "noodle bar", "sushi bar", "izakaya", "tapas bar",
    "steakhouse", "grill", "chophouse", "seafood restaurant", "oyster bar"]).map
    String.toList

/-- Multi-word phrase list scanned by the phrase loop of
`generate_embeddings_final.py` (lines 188-197), in source order. -/
def GEN_PHRASES : List Str :=
  (["date night", "fine dining", "bar seating", "counter seating",
    "middle eastern", "dim sum", "soul food", "coffee shop",
    "financial district", "lower east side", "east village", "west village",
    "greenwich village", "union square", "times square", "hells kitchen",
    "upper east side", "upper west side", "morningside heights",
    "east harlem", "washington heights", "battery park",
    "hidden gem", "local favorite", "hole in the wall", "happy hour",
    "late night", "family-style", "wine bar", "cocktail bar", "dive bar",
    "sports bar", "food hall", "food court", "ramen shop", "noodle bar",
    "sushi bar", "tapas bar", "seafood restaurant", "oyster bar"]).map
    String.toList

/-- State of the phrase loop of the index builder: the cuisine, vibe,
neighborhood and venue matched-word lists (the four lists the loop can append
to; the price list is not in its `if`/`elif` chain). -/
structure GenPhraseState where
  cuisine : List Str
  vibe : List Str
  nbhd : List Str
  venue : List Str

/-- Body of the phrase loop of `generate_embeddings_final.py` (lines
198-206): when the phrase occurs as a substring of the lowercased text, it is
appended to the first category set that contains it. -/
def genPhraseStep (text_lower : Str) (st : GenPhraseState) (phrase : Str) :
    GenPhraseState :=
  if isSubStr phrase text_lower then
    if phrase ∈ CUISINE_KEYWORDS then { st with cuisine := st.cuisine ++ [phrase] }
    else if phrase ∈ VIBE_KEYWORDS then { st with vibe := st.vibe ++ [phrase] }
    else if phrase ∈ GEN_NEIGHBORHOOD_KEYWORDS then { st with nbhd := st.nbhd ++ [phrase] }
    else if phrase ∈ GEN_VENUE_KEYWORDS then { st with venue := st.venue ++ [phrase] }
    else st
  else st

/-- Embedding of the text-boosting part of `generate_embeddings_final.py`
(lines 179-226): single-token matching against five keyword sets, a
substring pass over the fixed multi-word phrase list, then the five
conditional appends (cuisine twice, the rest once). This is the index-builder
counterpart of `boostQueryText`; unlike the query-side booster it does detect
multi-word phrases. -/
def genBoostText (text_content : Str) : Str :=
  let words_lower := pySplit (toLowerStr text_content)
  let cuisine_words0 := words_lower.filter (fun w => decide (w ∈ CUISINE_KEYWORDS))
  let vibe_words0 := words_lower.filter (fun w => decide (w ∈ VIBE_KEYWORDS))
  let price_words := words_lower.filter (fun w => decide (w ∈ PRICE_KEYWORDS))
  let nbhd_words0 := words_lower.filter (fun w => decide (w ∈ GEN_NEIGHBORHOOD_KEYWORDS))
  let venue_words0 := words_lower.filter (fun w => decide (w ∈ GEN_VENUE_KEYWORDS))
  let text_lower := toLowerStr text_content
  let st := GEN_PHRASES.foldl (genPhraseStep text_lower)
    ⟨cuisine_words0, vibe_words0, nbhd_words0, venue_words0⟩
  let t1 := if st.cuisine.isEmpty then text_content
            else text_content ++ ' ' :: joinSp (st.cuisine ++ st.cuisine)
  let t2 := if st.vibe.isEmpty then t1 else t1 ++ ' ' :: joinSp st.vibe
  let t3 := if price_words.isEmpty then t2 else t2 ++ ' ' :: joinSp price_words
  let t4 := if st.nbhd.isEmpty then t3 else t3 ++ ' ' :: joinSp st.nbhd
  let t5 := if st.venue.isEmpty then t4 else t4 ++ ' ' :: joinSp st.venue
  t5

/-! Lemmas about the string primitives. -/

/-- Value of `Char.toLower`, exposed for rewriting. -/
theorem toLower_val (c : Char) :
    c.toLower = if c.toNat ≥ 65 ∧ c.toNat ≤ 90 then Char.ofNat (c.toNat + 32) else c := rfl

/-- Code point of an uppercase letter shifted into lowercase range. -/
theorem toNat_ofNat_add32 (n : Nat) (h1 : 65 ≤ n) (h2 : n ≤ 90) :
    (Char.ofNat (n + 32)).toNat = n + 32 := by
  interval_cases n <;> decide

/-- Lowercasing a character twice is the same as lowercasing it once. -/
theorem toLower_idem (c : Char) : c.toLower.toLower = c.toLower := by
  by_cases h : c.toNat ≥ 65 ∧ c.toNat ≤ 90
  · have h2 : c.toLower.toNat = c.toNat + 32 := by
      rw [toLower_val, if_pos h]; exact toNat_ofNat_add32 c.toNat h.1 h.2
    rw [toLower_val c.toLower, h2, if_neg (by omega)]
  · have h1 : c.toLower = c := by rw [toLower_val, if_neg h]
    rw [h1, h1]

/-- Mapping a function that fixes every element of a list is the identity. -/
theorem map_id_of_forall {α : Type} (f : α → α) :
    ∀ l : List α, (∀ x ∈ l, f x = x) → l.map f = l := by
  intro l
  induction l with
  | nil => intro _; rfl
  | cons x xs ih =>
    intro h
    simp only [List.map_cons]
    rw [h x (List.mem_cons_self x xs), ih (fun y hy => h y (List.mem_cons_of_mem x hy))]

/-- Splitting distributes over a space that separates two pieces of text. -/
theorem pySplitAux_append_space (xs : Str) : ∀ acc ys : Str,
    pySplitAux acc (xs ++ ' ' :: ys) = pySplitAux acc xs ++ pySplitAux [] ys := by
  induction xs with
  | nil =>
    intro acc ys
    simp only [List.nil_append, pySplitAux]
    rw [if_pos (by decide)]
  | cons c cs ih =>
    intro acc ys
    simp only [List.cons_append, pySplitAux, List.append_eq]
    by_cases h : c.isWhitespace = true
    · rw [if_pos h, if_pos h, ih [] ys, List.append_assoc]
    · rw [if_neg h, if_neg h, ih (c :: acc) ys]

/-- Splitting a nonempty run of non-whitespace characters yields one token. -/
theorem pySplitAux_no_ws (xs : Str) : ∀ acc : Str,
    (∀ c ∈ xs, c.isWhitespace = false) → acc.reverse ++ xs ≠ [] →
    pySplitAux acc xs = [acc.reverse ++ xs] := by
  induction xs with
  | nil =>
    intro acc _ hne
    simp only [List.append_nil] at hne ⊢
    simp only [pySplitAux]
    rw [if_neg]
    simp only [List.isEmpty_iff, List.reverse_eq_nil_iff]
    intro hacc
    exact hne (by rw [hacc, List.reverse_nil])
  | cons c cs ih =>
    intro acc hws _
    simp only [pySplitAux]
    have hc : c.isWhitespace = false := hws c (List.mem_cons_self c cs)
    rw [if_neg (by simp [hc])]
    rw [ih (c :: acc) (fun d hd => hws d (List.mem_cons_of_mem c hd))
      (by simp)]
    simp

/-- Splitting a single nonempty whitespace-free token returns just it. -/
theorem pySplit_single (t : Str) (hne : t ≠ [])
    (hws : ∀ c ∈ t, c.isWhitespace = false) : pySplit t = [t] := by
  have := pySplitAux_no_ws t [] hws (by simpa)
  simpa [pySplit] using this

/-- Every token produced by `pySplitAux` is nonempty, whitespace-free and
made of characters of the accumulator or of the input. -/
theorem mem_pySplitAux (xs : Str) : ∀ acc t : Str,
    (∀ c ∈ acc, c.isWhitespace = false) → t ∈ pySplitAux acc xs →
    t ≠ [] ∧ ∀ c ∈ t, c.isWhitespace = false ∧ (c ∈ acc ∨ c ∈ xs) := by
  induction xs with
  | nil =>
    intro acc t hacc ht
    simp only [pySplitAux] at ht
    by_cases h : acc.isEmpty = true
    · rw [if_pos h] at ht; exact absurd ht (List.not_mem_nil t)
    · rw [if_neg h] at ht
      have hterev : t = acc.reverse := List.mem_singleton.mp ht
      subst hterev
      constructor
      · simp only [ne_eq, List.reverse_eq_nil_iff]
        intro hnil
        exact h (by rw [hnil]; rfl)
      · intro c hc
        have hcacc : c ∈ acc := List.mem_reverse.mp hc
        exact ⟨hacc c hcacc, Or.inl hcacc⟩
  | cons x xs ih =>
    intro acc t hacc ht
    simp only [pySplitAux] at ht
    by_cases h : x.isWhitespace = true
    · rw [if_pos h] at ht
      rcases List.mem_append.mp ht with hl | hr
      · by_cases hacc0 : acc.isEmpty = true
        · rw [if_pos hacc0] at hl; exact absurd hl (List.not_mem_nil t)
        · rw [if_neg hacc0] at hl
          have hterev : t = acc.reverse := List.mem_singleton.mp hl
          subst hterev
          refine ⟨?_, ?_⟩
          · simp only [ne_eq, List.reverse_eq_nil_iff]
            intro hnil
            exact hacc0 (by rw [hnil]; rfl)
          · intro c hc
            have hcacc : c ∈ acc := List.mem_reverse.mp hc
            exact ⟨hacc c hcacc, Or.inl hcacc⟩
      · have := ih [] t (by intro c hc; exact absurd hc (List.not_mem_nil c)) hr
        refine ⟨this.1, fun c hc => ?_⟩
        rcases this.2 c hc with ⟨hws, hmem⟩
        rcases hmem with hmem | hmem
        · exact absurd hmem (List.not_mem_nil c)
        · exact ⟨hws, Or.inr (List.mem_cons_of_mem x hmem)⟩
    · rw [if_neg h] at ht
      have hxws : x.isWhitespace = false := by
        cases hx : x.isWhitespace
        · rfl
        · exact absurd hx h
      have := ih (x :: acc) t
        (by
          intro c hc
          rcases List.mem_cons.mp hc with rfl | hc
          · exact hxws
          · exact hacc c hc) ht
      refine ⟨this.1, fun c hc => ?_⟩
      rcases this.2 c hc with ⟨hws, hmem⟩
      rcases hmem with hmem | hmem
      · rcases List.mem_cons.mp hmem with rfl | hmem
        · exact ⟨hws, Or.inr (List.mem_cons_self c xs)⟩
        · exact ⟨hws, Or.inl hmem⟩
      · exact ⟨hws, Or.inr (List.mem_cons_of_mem x hmem)⟩

/-- Tokens of `pySplit s` are nonempty, whitespace-free and drawn from `s`. -/
theorem mem_pySplit (s t : Str) (ht : t ∈ pySplit s) :
    t ≠ [] ∧ ∀ c ∈ t, c.isWhitespace = false ∧ c ∈ s := by
  have := mem_pySplitAux s [] t (by intro c hc; exact absurd hc (List.not_mem_nil c)) ht
  refine ⟨this.1, fun c hc => ?_⟩
  rcases this.2 c hc with ⟨hws, hmem⟩
  rcases hmem with hmem | hmem
  · exact absurd hmem (List.not_mem_nil c)
  · exact ⟨hws, hmem⟩

/-- Tokens of the lowercased text are fixed by lowercasing. -/
theorem toLower_fixed_of_mem_pySplit (s t : Str)
    (ht : t ∈ pySplit (toLowerStr s)) : toLowerStr t = t := by
  apply map_id_of_forall
  intro c hc
  have hcs : c ∈ toLowerStr s := ((mem_pySplit _ _ ht).2 c hc).2
  rcases List.mem_map.mp hcs with ⟨c', _, rfl⟩
  exact toLower_idem c'

/-- Splitting a space-join of nonempty whitespace-free tokens recovers them. -/
theorem pySplit_joinSp : ∀ ws : List Str,
    (∀ t ∈ ws, t ≠ [] ∧ ∀ c ∈ t, c.isWhitespace = false) →
    pySplit (joinSp ws) = ws := by
  intro ws
  induction ws with
  | nil => intro _; rfl
  | cons w rest ih =>
    intro h
    cases rest with
    | nil =>
      have hw := h w (List.mem_cons_self w [])
      simpa [joinSp] using pySplit_single w hw.1 hw.2
    | cons x rest' =>
      have hw := h w (List.mem_cons_self w _)
      show pySplit (w ++ ' ' :: joinSp (x :: rest')) = w :: x :: rest'
      unfold pySplit
      rw [pySplitAux_append_space]
      have h1 : pySplitAux [] w = [w] := by
        simpa [pySplit] using pySplit_single w hw.1 hw.2
      have h2 : pySplitAux [] (joinSp (x :: rest')) = x :: rest' := by
        have := ih (fun t ht => h t (List.mem_cons_of_mem w ht))
        simpa [pySplit] using this
      rw [h1, h2]
      rfl

/-- Lowercasing maps through a space-join. -/
theorem toLowerStr_joinSp : ∀ ws : List Str,
    toLowerStr (joinSp ws) = joinSp (ws.map toLowerStr) := by
  intro ws
  induction ws with
  | nil => rfl
  | cons w rest ih =>
    cases rest with
    | nil => rfl
    | cons x rest' =>
      show toLowerStr (w ++ ' ' :: joinSp (x :: rest')) = _
      simp only [toLowerStr, List.map_append, List.map_cons]
      rw [show Char.toLower ' ' = ' ' from by decide]
      simp only [toLowerStr] at ih
      rw [ih]
      rfl

/-- Tokenizing the lowercase of `b ++ " " ++ join ws` appends the tokens `ws`
to those of `b`, provided the `ws` are lowercase-fixed, nonempty and
whitespace-free. -/
theorem pySplit_toLower_append_join (b : Str) (ws : List Str)
    (hfix : ∀ t ∈ ws, toLowerStr t = t)
    (hgood : ∀ t ∈ ws, t ≠ [] ∧ ∀ c ∈ t, c.isWhitespace = false) :
    pySplit (toLowerStr (b ++ ' ' :: joinSp ws)) = pySplit (toLowerStr b) ++ ws := by
  have hmap : (ws.map toLowerStr) = ws := map_id_of_forall toLowerStr ws hfix
  simp only [toLowerStr, List.map_append, List.map_cons]
  rw [show Char.toLower ' ' = ' ' from by decide]
  unfold pySplit
  rw [pySplitAux_append_space]
  have : (joinSp ws).map Char.toLower = joinSp ws := by
    have h1 := toLowerStr_joinSp ws
    simp only [toLowerStr] at h1 hmap
    rw [h1, hmap]
  rw [this]
  have h2 : pySplitAux [] (joinSp ws) = ws := by
    simpa [pySplit] using pySplit_joinSp ws hgood
  rw [h2]

/-- Token-level description of the query booster: on nonempty text, the
lowercased tokens of the boosted text are the original tokens followed by the
matched cuisine tokens twice, the matched vibe tokens once and the matched
price tokens once. -/
theorem pySplit_boostQueryText (text : Str) (hne : text ≠ []) :
    pySplit (toLowerStr (boostQueryText (some text))) =
      pySplit (toLowerStr text)
      ++ (pySplit (toLowerStr text)).filter (fun w => decide (w ∈ CUISINE_KEYWORDS))
      ++ (pySplit (toLowerStr text)).filter (fun w => decide (w ∈ CUISINE_KEYWORDS))
      ++ (pySplit (toLowerStr text)).filter (fun w => decide (w ∈ VIBE_KEYWORDS))
      ++ (pySplit (toLowerStr text)).filter (fun w => decide (w ∈ PRICE_KEYWORDS)) := by
  set words := pySplit (toLowerStr text) with hwordsdef
  set cw := words.filter (fun w => decide (w ∈ CUISINE_KEYWORDS)) with hcwdef
  set vw := words.filter (fun w => decide (w ∈ VIBE_KEYWORDS)) with hvwdef
  set pw := words.filter (fun w => decide (w ∈ PRICE_KEYWORDS)) with hpwdef
  have hgoodw : ∀ t ∈ words, t ≠ [] ∧ ∀ c ∈ t, c.isWhitespace = false := by
    intro t ht
    exact ⟨(mem_pySplit _ t ht).1, fun c hc => ((mem_pySplit _ t ht).2 c hc).1⟩
  have hfixw : ∀ t ∈ words, toLowerStr t = t := by
    intro t ht
    exact toLower_fixed_of_mem_pySplit text t ht
  have hcw_sub : ∀ t ∈ cw, t ∈ words := fun t ht => (List.mem_filter.mp ht).1
  have hvw_sub : ∀ t ∈ vw, t ∈ words := fun t ht => (List.mem_filter.mp ht).1
  have hpw_sub : ∀ t ∈ pw, t ∈ words := fun t ht => (List.mem_filter.mp ht).1
  have stepc : ∀ b : Str,
      pySplit (toLowerStr (b ++ ' ' :: joinSp (cw ++ cw)))
        = pySplit (toLowerStr b) ++ (cw ++ cw) := by
    intro b
    apply pySplit_toLower_append_join
    · intro t ht
      rcases List.mem_append.mp ht with h | h
      · exact hfixw t (hcw_sub t h)
      · exact hfixw t (hcw_sub t h)
    · intro t ht
      rcases List.mem_append.mp ht with h | h
      · exact hgoodw t (hcw_sub t h)
      · exact hgoodw t (hcw_sub t h)
  have stepv : ∀ b : Str,
      pySplit (toLowerStr (b ++ ' ' :: joinSp vw)) = pySplit (toLowerStr b) ++ vw := by
    intro b
    exact pySplit_toLower_append_join b vw (fun t ht => hfixw t (hvw_sub t ht))
      (fun t ht => hgoodw t (hvw_sub t ht))
  have stepp : ∀ b : Str,
      pySplit (toLowerStr (b ++ ' ' :: joinSp pw)) = pySplit (toLowerStr b) ++ pw := by
    intro b
    exact pySplit_toLower_append_join b pw (fun t ht => hfixw t (hpw_sub t ht))
      (fun t ht => hgoodw t (hpw_sub t ht))
  have hne' : ¬(text.isEmpty = true) := by simp [List.isEmpty_iff, hne]
  simp only [boostQueryText, Option.getD_some, ← hwordsdef, ← hcwdef, ← hvwdef, ← hpwdef]
  rw [if_neg hne']
  by_cases hc : cw.isEmpty = true <;> by_cases hv : vw.isEmpty = true <;>
    by_cases hp : pw.isEmpty = true
  · rw [if_pos hc, if_pos hv, if_pos hp, List.isEmpty_iff.mp hc, List.isEmpty_iff.mp hv,
      List.isEmpty_iff.mp hp]
    simp
  · rw [if_pos hc, if_pos hv, if_neg hp, stepp, List.isEmpty_iff.mp hc, List.isEmpty_iff.mp hv]
    simp
  · rw [if_pos hc, if_neg hv, if_pos hp, stepv, List.isEmpty_iff.mp hc, List.isEmpty_iff.mp hp]
    simp
  · rw [if_pos hc, if_neg hv, if_neg hp, stepp, stepv, List.isEmpty_iff.mp hc]
    simp
  · rw [if_neg hc, if_pos hv, if_pos hp, stepc, List.isEmpty_iff.mp hv, List.isEmpty_iff.mp hp]
    simp
  · rw [if_neg hc, if_pos hv, if_neg hp, stepp, stepc, List.isEmpty_iff.mp hv]
    simp
  · rw [if_neg hc, if_neg hv, if_pos hp, stepv, stepc, List.isEmpty_iff.mp hp]
    simp
  · rw [if_neg hc, if_neg hv, if_neg hp, stepp, stepv, stepc]
    simp

/-- Counting a keyword through the matched-token filter of its own set. -/
theorem count_filter_mem {S : List Str} {w : Str} (hw : w ∈ S) (l : List Str) :
    (l.filter (fun x => decide (x ∈ S))).count w = l.count w :=
  List.count_filter (by simpa using hw)

/-- Counting a word through the matched-token filter of a set it is not in. -/
theorem count_filter_not_mem {S : List Str} {w : Str} (hw : w ∉ S) (l : List Str) :
    (l.filter (fun x => decide (x ∈ S))).count w = 0 := by
  apply List.count_eq_zero.mpr
  intro hmem
  exact hw (of_decide_eq_true (List.mem_filter.mp hmem).2)

/-- Cuisine and vibe keyword sets of `app/app.py` are disjoint. -/
theorem cuisine_vibe_disjoint : ∀ w ∈ CUISINE_KEYWORDS, w ∉ VIBE_KEYWORDS := by decide

/-- Cuisine and price keyword sets of `app/app.py` are disjoint. -/
theorem cuisine_price_disjoint : ∀ w ∈ CUISINE_KEYWORDS, w ∉ PRICE_KEYWORDS := by decide

/-- Vibe and price keyword sets of `app/app.py` are disjoint. -/
theorem vibe_price_disjoint : ∀ w ∈ VIBE_KEYWORDS, w ∉ PRICE_KEYWORDS := by decide

/-- C2: for every text query containing a single-token cuisine keyword
exactly once (as a lowercased whitespace token), the boosted text contains
that keyword exactly 3 times in total (1 original + 2 appended); a vibe or
price keyword occurring once appears exactly 2 times in total. -/
theorem c2_lexical_booster_multiplicity (text w : Str)
    (hone : tokCount w text = 1) :
    (w ∈ CUISINE_KEYWORDS → tokCount w (boostQueryText (some text)) = 3) ∧
    ((w ∈ VIBE_KEYWORDS ∨ w ∈ PRICE_KEYWORDS) →
      tokCount w (boostQueryText (some text)) = 2) := by
  have htext_ne : text ≠ [] := by
    intro h
    subst h
    simp [tokCount, toLowerStr, pySplit, pySplitAux] at hone
  have hone' : (pySplit (toLowerStr text)).count w = 1 := hone
  constructor
  · intro hwc
    show (pySplit (toLowerStr (boostQueryText (some text)))).count w = 3
    rw [pySplit_boostQueryText text htext_ne]
    simp only [List.count_append]
    rw [hone', count_filter_mem hwc,
      count_filter_not_mem (cuisine_vibe_disjoint w hwc),
      count_filter_not_mem (cuisine_price_disjoint w hwc), hone']
  · intro hv
    show (pySplit (toLowerStr (boostQueryText (some text)))).count w = 2
    rw [pySplit_boostQueryText text htext_ne]
    simp only [List.count_append]
    rcases hv with hv | hp
    · have hnc : w ∉ CUISINE_KEYWORDS := fun hc => cuisine_vibe_disjoint w hc hv
      rw [hone', count_filter_mem hv, count_filter_not_mem hnc,
        count_filter_not_mem (vibe_price_disjoint w hv), hone']
    · have hnc : w ∉ CUISINE_KEYWORDS := fun hc => cuisine_price_disjoint w hc hp
      have hnv : w ∉ VIBE_KEYWORDS := fun hv' => vibe_price_disjoint w hv' hp
      rw [hone', count_filter_mem hp, count_filter_not_mem hnc,
        count_filter_not_mem hnv, hone']

/-- Witness for C2: in the query "cozy ramen" the cuisine keyword "ramen"
occurs once and is boosted to 3 occurrences, and the vibe keyword "cozy"
occurs once and is boosted to 2 occurrences. -/
theorem c2_lexical_booster_multiplicity_witness :
    tokCount "ramen".toList "cozy ramen".toList = 1 ∧
    "ramen".toList ∈ CUISINE_KEYWORDS ∧
    tokCount "ramen".toList (boostQueryText (some "cozy ramen".toList)) = 3 ∧
    tokCount "cozy".toList (boostQueryText (some "cozy ramen".toList)) = 2 :=
  ⟨by decide, by decide,
    (c2_lexical_booster_multiplicity "cozy ramen".toList "ramen".toList (by decide)).1
      (by decide),
    (c2_lexical_booster_multiplicity "cozy ramen".toList "cozy".toList (by decide)).2
      (Or.inl (by decide))⟩

/-- C9: for every text query whose lowercased whitespace tokens contain no
cuisine, vibe or price keyword, the Lexical Booster returns the input text
unchanged; in particular the empty string (and an absent text) passes
through unchanged. -/
theorem c9_booster_identity_without_keywords (text : Str)
    (hnone : ∀ t ∈ pySplit (toLowerStr text),
      t ∉ CUISINE_KEYWORDS ∧ t ∉ VIBE_KEYWORDS ∧ t ∉ PRICE_KEYWORDS) :
    boostQueryText (some text) = text ∧
    boostQueryText (some []) = [] ∧ boostQueryText none = [] := by
  refine ⟨?_, rfl, rfl⟩
  by_cases htext : text = []
  · subst htext; rfl
  · have hcw : (pySplit (toLowerStr text)).filter
        (fun w => decide (w ∈ CUISINE_KEYWORDS)) = [] := by
      apply List.filter_eq_nil_iff.mpr
      intro t ht
      simpa using (hnone t ht).1
    have hvw : (pySplit (toLowerStr text)).filter
        (fun w => decide (w ∈ VIBE_KEYWORDS)) = [] := by
      apply List.filter_eq_nil_iff.mpr
      intro t ht
      simpa using (hnone t ht).2.1
    have hpw : (pySplit (toLowerStr text)).filter
        (fun w => decide (w ∈ PRICE_KEYWORDS)) = [] := by
      apply List.filter_eq_nil_iff.mpr
      intro t ht
      simpa using (hnone t ht).2.2
    simp only [boostQueryText, Option.getD_some, hcw, hvw, hpw]
    rw [if_neg (by simp [List.isEmpty_iff, htext])]
    simp

/-- Witness for C9: the keyword-free query "where should i eat tonight"
passes through the booster unchanged. -/
theorem c9_booster_identity_without_keywords_witness :
    boostQueryText (some "where should i eat tonight".toList)
      = "where should i eat tonight".toList :=
  (c9_booster_identity_without_keywords "where should i eat tonight".toList
    (by decide)).1

/-- Reflexivity of the prefix test. -/
theorem isPrefixStr_refl : ∀ s : Str, isPrefixStr s s = true := by
  intro s
  induction s with
  | nil => rfl
  | cons c t ih => simp [isPrefixStr, ih]

/-- Reflexivity of the substring test. -/
theorem isSubStr_refl (s : Str) : isSubStr s s = true := by
  cases s with
  | nil => rfl
  | cons c t => simp [isSubStr, isPrefixStr_refl]

/-- Canonical neighborhood names in the variations dictionary are nonempty
strings (hence truthy in Python). -/
theorem nv_values_nonempty : ∀ p ∈ NEIGHBORHOOD_VARIATIONS, p.2 ≠ [] := by decide

/-- Resolved neighborhood filters are nonempty strings. -/
theorem normalize_some_ne_nil (q s : Str)
    (h : normalize_neighborhood_query q = some s) : s ≠ [] := by
  simp only [normalize_neighborhood_query] at h
  cases hf : NEIGHBORHOOD_VARIATIONS.find?
      (fun p => p.1 == pyStrip (toLowerStr q)) with
  | some p =>
    rw [hf] at h
    simp only [Option.some_inj] at h
    subst h
    exact nv_values_nonempty p (List.mem_of_find?_eq_some hf)
  | none =>
    rw [hf] at h
    cases hg : NEIGHBORHOOD_VARIATIONS.find?
        (fun p => isSubStr p.1 (pyStrip (toLowerStr q))) with
    | some p =>
      rw [hg] at h
      simp only [Option.map_some', Option.some_inj] at h
      subst h
      exact nv_values_nonempty p (List.mem_of_find?_eq_some hg)
    | none =>
      rw [hg] at h
      simp at h

/-- C1: when the neighborhood resolver returns a canonical neighborhood, the
assembler requests `requested_count * 5` candidates from the FAISS index;
when it returns null — whether or not a price filter is active, since
`search_k` does not consult the price filter at all — it requests exactly
`requested_count` candidates. -/
theorem c1_overfetch_factor (q : Str) (k : Nat) :
    (∀ s, normalize_neighborhood_query q = some s →
      search_k (normalize_neighborhood_query q) k = k * 5) ∧
    (normalize_neighborhood_query q = none →
      search_k (normalize_neighborhood_query q) k = k) := by
  constructor
  · intro s hs
    have hne := normalize_some_ne_nil q s hs
    rw [hs]
    simp [search_k, pyTruthyStr, List.isEmpty_iff, hne]
  · intro h
    rw [h]
    rfl

/-- Witness for C1: "soho" resolves, so 20 requested results over-fetch 100
candidates; "generic query" does not resolve, so 20 are requested. -/
theorem c1_overfetch_factor_witness :
    normalize_neighborhood_query "soho".toList = some "SoHo".toList ∧
    search_k (normalize_neighborhood_query "soho".toList) 20 = 100 ∧
    normalize_neighborhood_query "generic query".toList = none ∧
    search_k (normalize_neighborhood_query "generic query".toList) 20 = 20 :=
  ⟨by decide,
    ((c1_overfetch_factor "soho".toList 20).1 "SoHo".toList (by decide) :
      search_k (normalize_neighborhood_query "soho".toList) 20 = 20 * 5),
    by decide,
    (c1_overfetch_factor "generic query".toList 20).2 (by decide)⟩

/-- C5: the Neighborhood Resolver maps "les" to "Lower East Side" through the
exact-match dictionary and "I want soho food" to "SoHo" through the substring
fallback, and every query text in which no variation key occurs as a
substring (for example "generic query") resolves to `none`; the resolver is
a total function, so it never raises. -/
theorem c5_neighborhood_resolver (q : Str)
    (hnone : ∀ p ∈ NEIGHBORHOOD_VARIATIONS,
      isSubStr p.1 (pyStrip (toLowerStr q)) = false) :
    normalize_neighborhood_query "les".toList = some "Lower East Side".toList ∧
    normalize_neighborhood_query "I want soho food".toList = some "SoHo".toList ∧
    normalize_neighborhood_query q = none := by
  refine ⟨by decide, by decide, ?_⟩
  have h1 : NEIGHBORHOOD_VARIATIONS.find?
      (fun p => p.1 == pyStrip (toLowerStr q)) = none := by
    apply List.find?_eq_none.mpr
    intro p hp hbeq
    have heq : p.1 = pyStrip (toLowerStr q) := by simpa using hbeq
    have := hnone p hp
    rw [heq, isSubStr_refl] at this
    simp at this
  have h2 : NEIGHBORHOOD_VARIATIONS.find?
      (fun p => isSubStr p.1 (pyStrip (toLowerStr q))) = none := by
    apply List.find?_eq_none.mpr
    intro p hp hsub
    rw [hnone p hp] at hsub
    simp at hsub
  simp [normalize_neighborhood_query, h1, h2]

/-- Witness for C5: "generic query" contains no neighborhood variation and
resolves to `none`. -/
theorem c5_neighborhood_resolver_witness :
    (∀ p ∈ NEIGHBORHOOD_VARIATIONS,
      isSubStr p.1 (pyStrip (toLowerStr "generic query".toList)) = false) ∧
    normalize_neighborhood_query "generic query".toList = none :=
  ⟨by decide, (c5_neighborhood_resolver "generic query".toList (by decide)).2.2⟩

/-- C10 counterexample: the claim that any text containing the letter pair
"ev" resolves to "East Village" is false: "soho ev" contains "ev" but
resolves to "SoHo", because the "soho" variation key is checked first. -/
theorem c10_counterexample_ev_not_universal :
    isSubStr "ev".toList "soho ev".toList = true ∧
    normalize_neighborhood_query "soho ev".toList = some "SoHo".toList ∧
    normalize_neighborhood_query "soho ev".toList ≠ some "East Village".toList := by
  refine ⟨by decide, by decide, by decide⟩

/-- C10 (amended): there are query texts mentioning no neighborhood in which
a variation key occurs inside an unrelated word and the resolver returns a
canonical neighborhood, activating the over-fetch and the neighborhood
filter: "reviews" (containing "ev") resolves to "East Village" and "noodles"
(containing "les") resolves to "Lower East Side", and both make `search_k`
request 100 candidates for 20. -/
theorem c10_amended_substring_false_positives :
    normalize_neighborhood_query "reviews".toList = some "East Village".toList ∧
    normalize_neighborhood_query "noodles".toList = some "Lower East Side".toList ∧
    search_k (normalize_neighborhood_query "reviews".toList) 20 = 100 ∧
    search_k (normalize_neighborhood_query "noodles".toList) 20 = 100 := by
  refine ⟨by decide, by decide, by decide, by decide⟩

/-- C3: for every valid input (any text, optional image) the Multi-Modal
Encoder returns a single-row matrix whose row has dimension exactly 896
(384 text + 512 image) — given the external model contracts that the
sentence encoder returns 384-dimensional vectors and the image encoder, when
it succeeds, 512-dimensional ones — and whenever no image is supplied the
last 512 entries of the row are the zero vector. -/
theorem c3_encoder_dimensions (M : EncoderModels) (text : Option Str)
    (image_file : Option (List UInt8))
    (htext : ∀ s, (M.textEmbed s).length = 384)
    (himg : ∀ b v, M.imageEmbed b = some v → v.length = 512) :
    (encode_query M text image_file).length = 1 ∧
    (∀ row ∈ encode_query M text image_file, row.length = 896) ∧
    (image_file = none →
      ∀ row ∈ encode_query M text image_file, row.drop 384 = zeros512) := by
  have hzlen : zeros512.length = 512 := by
    rw [zeros512, List.length_replicate]
  refine ⟨rfl, ?_, ?_⟩
  · intro row hrow
    cases image_file with
    | none =>
      simp only [encode_query, List.mem_singleton] at hrow
      subst hrow
      rw [List.length_append, htext, hzlen]
    | some bytes =>
      simp only [encode_query, List.mem_singleton] at hrow
      subst hrow
      rw [List.length_append, htext]
      by_cases hb : (!bytes.isEmpty && USE_IMAGE_SEARCH) = true
      · rw [if_pos hb]
        cases hv : M.imageEmbed bytes with
        | none =>
          show 384 + zeros512.length = 896
          rw [hzlen]
        | some v =>
          show 384 + v.length = 896
          rw [himg bytes v hv]
      · rw [if_neg hb, hzlen]
  · intro hnone row hrow
    subst hnone
    simp only [encode_query, List.mem_singleton] at hrow
    subst hrow
    rw [show (384 : Nat) = (M.textEmbed (boostQueryText text)).length from
      (htext _).symm]
    exact List.drop_left _ _

/-- Concrete encoder models for the encoder witnesses: a constant text model
of the right dimension and an image model that always fails. -/
def modelsW : EncoderModels :=
  { textEmbed := fun _ => List.replicate 384 (0.0 : Float)
    imageEmbed := fun _ => none }

/-- Witness for C3: with the concrete models and no image, the output is one
row of length 896 whose last 512 entries are zero. -/
theorem c3_encoder_dimensions_witness :
    (encode_query modelsW (some "pizza".toList) none).length = 1 ∧
    (∀ row ∈ encode_query modelsW (some "pizza".toList) none, row.length = 896) ∧
    (∀ row ∈ encode_query modelsW (some "pizza".toList) none,
      row.drop 384 = zeros512) := by
  have h := c3_encoder_dimensions modelsW (some "pizza".toList) none
    (fun s => by
      rw [show modelsW.textEmbed s = List.replicate 384 (0.0 : Float) from rfl,
        List.length_replicate])
    (fun b v hv => Option.noConfusion hv)
  exact ⟨h.1, h.2.1, h.2.2 rfl⟩

/-- C7: when non-empty image bytes are supplied but the image branch fails
(corrupt or unsupported payload, modelled by the image model returning
`none`), the failure is absorbed inside the encoder: the image segment is the
all-zero 512-vector and the result is identical to the text-only encoding of
the same query. -/
theorem c7_corrupt_image_degrades_to_text (M : EncoderModels) (text : Option Str)
    (bytes : List UInt8) (hne : bytes ≠ [])
    (hfail : M.imageEmbed bytes = none) :
    encode_query M text (some bytes)
      = [M.textEmbed (boostQueryText text) ++ zeros512] ∧
    encode_query M text (some bytes) = encode_query M text none := by
  have hb : (!bytes.isEmpty && USE_IMAGE_SEARCH) = true := by
    simp [USE_IMAGE_SEARCH, List.isEmpty_iff, hne]
  constructor
  · simp only [encode_query, hb, if_pos, hfail]
  · simp only [encode_query, hb, if_pos, hfail]

/-- Witness for C7: a concrete non-empty byte payload that the image model
rejects produces the text-only encoding. -/
theorem c7_corrupt_image_degrades_to_text_witness :
    ([(0 : UInt8)] ≠ ([] : List UInt8)) ∧
    encode_query modelsW (some "pizza".toList) (some [(0 : UInt8)])
      = encode_query modelsW (some "pizza".toList) none :=
  ⟨by decide,
    (c7_corrupt_image_degrades_to_text modelsW (some "pizza".toList)
      [(0 : UInt8)] (by decide) rfl).2⟩

/-- Unfolding of the assembler loop on a candidate that fails to hydrate. -/
theorem assembleLoop_cons_none {σ : Type} (meta : Nat → Nat)
    (db : Nat → Option Restaurant) (nf : Option Str) (pf : PriceFilter)
    (top_k : Nat) (acc : List (Nat × Restaurant × σ)) (idx : Nat) (dist : σ)
    (rest : List (Nat × σ)) (hdb : db (meta idx) = none) :
    assembleLoop meta db nf pf top_k acc ((idx, dist) :: rest)
      = assembleLoop meta db nf pf top_k acc rest := by
  simp [assembleLoop, hdb]

/-- Unfolding of `survivors` on a candidate that fails to hydrate. -/
theorem survivors_cons_none {σ : Type} (meta : Nat → Nat)
    (db : Nat → Option Restaurant) (nf : Option Str) (pf : PriceFilter)
    (idx : Nat) (dist : σ) (rest : List (Nat × σ))
    (hdb : db (meta idx) = none) :
    survivors meta db nf pf ((idx, dist) :: rest)
      = survivors meta db nf pf rest := by
  simp [survivors, List.filterMap_cons, hdb]

/-- Core invariant of the assembler loop: starting below the target, the loop
returns the accumulated results followed by the next
`top_k - acc.length` surviving candidates, in candidate order. -/
theorem assembleLoop_eq_take {σ : Type} (meta : Nat → Nat)
    (db : Nat → Option Restaurant) (nf : Option Str) (pf : PriceFilter)
    (top_k : Nat) :
    ∀ (cands : List (Nat × σ)) (acc : List (Nat × Restaurant × σ)),
      acc.length < top_k →
      assembleLoop meta db nf pf top_k acc cands
        = acc ++ (survivors meta db nf pf cands).take (top_k - acc.length) := by
  intro cands
  induction cands with
  | nil =>
    intro acc _
    simp [assembleLoop, survivors]
  | cons c rest ih =>
    intro acc hacc
    obtain ⟨idx, dist⟩ := c
    cases hdb : db (meta idx) with
    | none =>
      rw [assembleLoop_cons_none _ _ _ _ _ _ _ _ _ hdb,
        survivors_cons_none _ _ _ _ _ _ _ hdb]
      exact ih acc hacc
    | some details =>
      by_cases hnb : pyTruthyStr nf = true ∧ details.neighborhood ≠ nf
      · have hl : assembleLoop meta db nf pf top_k acc ((idx, dist) :: rest)
            = assembleLoop meta db nf pf top_k acc rest := by
          simp only [assembleLoop, hdb]
          rw [if_pos hnb]
        have hs : survivors meta db nf pf ((idx, dist) :: rest)
            = survivors meta db nf pf rest := by
          simp only [survivors, List.filterMap_cons, hdb]
          rw [if_pos hnb]
        rw [hl, hs]
        exact ih acc hacc
      · by_cases hpk : priceKeep pf details.price_level = false
        · have hl : assembleLoop meta db nf pf top_k acc ((idx, dist) :: rest)
              = assembleLoop meta db nf pf top_k acc rest := by
            simp only [assembleLoop, hdb]
            rw [if_neg hnb, if_pos hpk]
          have hs : survivors meta db nf pf ((idx, dist) :: rest)
              = survivors meta db nf pf rest := by
            simp only [survivors, List.filterMap_cons, hdb]
            rw [if_neg hnb, if_pos hpk]
          rw [hl, hs]
          exact ih acc hacc
        · have hl : assembleLoop meta db nf pf top_k acc ((idx, dist) :: rest)
              = (if top_k ≤ (acc ++ [(meta idx, details, dist)]).length
                 then acc ++ [(meta idx, details, dist)]
                 else assembleLoop meta db nf pf top_k
                   (acc ++ [(meta idx, details, dist)]) rest) := by
            simp only [assembleLoop, hdb]
            rw [if_neg hnb, if_neg hpk]
          have hs : survivors meta db nf pf ((idx, dist) :: rest)
              = (meta idx, details, dist) :: survivors meta db nf pf rest := by
            simp only [survivors, List.filterMap_cons, hdb]
            rw [if_neg hnb, if_neg hpk]
          rw [hl, hs]
          by_cases hfull : top_k ≤ acc.length + 1
          · rw [if_pos (by simpa using hfull)]
            have h1 : top_k - acc.length = 1 := by omega
            rw [h1]
            simp
          · rw [if_neg (by simpa using hfull)]
            rw [ih (acc ++ [(meta idx, details, dist)]) (by simp; omega)]
            have h2 : top_k - acc.length = (top_k - (acc.length + 1)) + 1 := by
              omega
            rw [h2, List.take_succ_cons]
            simp

/-- Every result the assembler loop adds beyond its accumulator passed both
the neighborhood and the price test. -/
theorem mem_assembleLoop {σ : Type} (meta : Nat → Nat)
    (db : Nat → Option Restaurant) (nf : Option Str) (pf : PriceFilter)
    (top_k : Nat) :
    ∀ (cands : List (Nat × σ)) (acc : List (Nat × Restaurant × σ))
      (r : Nat × Restaurant × σ),
      r ∈ assembleLoop meta db nf pf top_k acc cands →
      r ∈ acc ∨ (priceKeep pf r.2.1.price_level = true ∧
        ¬(pyTruthyStr nf = true ∧ r.2.1.neighborhood ≠ nf)) := by
  intro cands
  induction cands with
  | nil =>
    intro acc r hr
    exact Or.inl (by simpa [assembleLoop] using hr)
  | cons c rest ih =>
    intro acc r hr
    obtain ⟨idx, dist⟩ := c
    cases hdb : db (meta idx) with
    | none =>
      rw [assembleLoop_cons_none _ _ _ _ _ _ _ _ _ hdb] at hr
      exact ih acc r hr
    | some details =>
      by_cases hnb : pyTruthyStr nf = true ∧ details.neighborhood ≠ nf
      · have hl : assembleLoop meta db nf pf top_k acc ((idx, dist) :: rest)
            = assembleLoop meta db nf pf top_k acc rest := by
          simp only [assembleLoop, hdb]
          rw [if_pos hnb]
        rw [hl] at hr
        exact ih acc r hr
      · by_cases hpk : priceKeep pf details.price_level = false
        · have hl : assembleLoop meta db nf pf top_k acc ((idx, dist) :: rest)
              = assembleLoop meta db nf pf top_k acc rest := by
            simp only [assembleLoop, hdb]
            rw [if_neg hnb, if_pos hpk]
          rw [hl] at hr
          exact ih acc r hr
        · have hpk' : priceKeep pf details.price_level = true :=
            Bool.not_eq_false _ |>.mp hpk
          have hl : assembleLoop meta db nf pf top_k acc ((idx, dist) :: rest)
              = (if top_k ≤ (acc ++ [(meta idx, details, dist)]).length
                 then acc ++ [(meta idx, details, dist)]
                 else assembleLoop meta db nf pf top_k
                   (acc ++ [(meta idx, details, dist)]) rest) := by
            simp only [assembleLoop, hdb]
            rw [if_neg hnb, if_neg hpk]
          rw [hl] at hr
          by_cases hfull : top_k ≤ (acc ++ [(meta idx, details, dist)]).length
          · rw [if_pos hfull] at hr
            rcases List.mem_append.mp hr with h | h
            · exact Or.inl h
            · have : r = (meta idx, details, dist) := List.mem_singleton.mp h
              subst this
              exact Or.inr ⟨hpk', hnb⟩
          · rw [if_neg hfull] at hr
            rcases ih (acc ++ [(meta idx, details, dist)]) r hr with h | h
            · rcases List.mem_append.mp h with h | h
              · exact Or.inl h
              · have : r = (meta idx, details, dist) := List.mem_singleton.mp h
                subst this
                exact Or.inr ⟨hpk', hnb⟩
            · exact Or.inr h

/-- C8: for every search request with `requested_count ≥ 1` the assembler
returns exactly the first `requested_count` surviving candidates in candidate
(score) order — so it never returns more than `requested_count` results,
skips candidates that fail to hydrate without counting them, and when the
over-fetched list is exhausted with fewer survivors it returns that smaller
list as an ordinary value, not an error. -/
theorem c8_assembler_truncation {σ : Type} (faissSearch : Nat → List (Nat × σ))
    (meta : Nat → Nat) (db : Nat → Option Restaurant) (q : Str)
    (pf : PriceFilter) (top_k : Nat) (htk : 1 ≤ top_k) :
    search faissSearch meta db q pf top_k
      = (survivors meta db (normalize_neighborhood_query q) pf
          (faissSearch (search_k (normalize_neighborhood_query q) top_k))).take
          top_k ∧
    (search faissSearch meta db q pf top_k).length ≤ top_k ∧
    ((survivors meta db (normalize_neighborhood_query q) pf
        (faissSearch (search_k (normalize_neighborhood_query q) top_k))).length
        ≤ top_k →
      search faissSearch meta db q pf top_k
        = survivors meta db (normalize_neighborhood_query q) pf
            (faissSearch (search_k (normalize_neighborhood_query q) top_k))) ∧
    (∀ (acc : List (Nat × Restaurant × σ)) (idx : Nat) (dist : σ)
        (rest : List (Nat × σ)), db (meta idx) = none →
      assembleLoop meta db (normalize_neighborhood_query q) pf top_k acc
          ((idx, dist) :: rest)
        = assembleLoop meta db (normalize_neighborhood_query q) pf top_k acc
            rest) := by
  have hmain : search faissSearch meta db q pf top_k
      = (survivors meta db (normalize_neighborhood_query q) pf
          (faissSearch (search_k (normalize_neighborhood_query q) top_k))).take
          top_k := by
    show assembleLoop meta db (normalize_neighborhood_query q) pf top_k []
        (faissSearch (search_k (normalize_neighborhood_query q) top_k)) = _
    rw [assembleLoop_eq_take meta db (normalize_neighborhood_query q) pf top_k
      _ [] (by simpa using htk)]
    simp
  refine ⟨hmain, ?_, ?_, ?_⟩
  · rw [hmain, List.length_take]
    exact Nat.min_le_left _ _
  · intro hle
    rw [hmain, List.take_of_length_le hle]
  · intro acc idx dist rest hdb
    exact assembleLoop_cons_none _ _ _ _ _ _ _ _ _ hdb

/-- Witness for C8: a concrete two-candidate search with `requested_count`
1 returns at most 1 result. -/
theorem c8_assembler_truncation_witness :
    1 ≤ 1 ∧
    (search (fun _ => [(0, (1 : Int)), (1, 1)]) (fun n => n)
      (fun _ => some (Restaurant.mk (some "Lower East Side".toList) none))
      "les".toList PriceFilter.pfNone 1).length ≤ 1 :=
  ⟨by decide,
    (c8_assembler_truncation (fun _ => [(0, (1 : Int)), (1, 1)]) (fun n => n)
      (fun _ => some (Restaurant.mk (some "Lower East Side".toList) none))
      "les".toList PriceFilter.pfNone 1 (by decide)).2.1⟩

/-- C4: with a non-null price filter, a list filter keeps exactly the
candidates whose hydrated `price_level` is a member, a single-value filter
keeps exactly those equal to it, a null `price_level` is always excluded,
every record in the assembler output passed the active price filter, and in
particular `price_filter = [1,2]` excludes levels 3 and null and includes
level 2. -/
theorem c4_price_filter (vs : List Int) (v p : Int) :
    (priceKeep (.pfList vs) (some p) = true ↔ p ∈ vs) ∧
    priceKeep (.pfList vs) none = false ∧
    (priceKeep (.pfSingle v) (some p) = true ↔ p = v) ∧
    priceKeep (.pfSingle v) none = false ∧
    (∀ {σ : Type} (meta : Nat → Nat) (db : Nat → Option Restaurant)
        (nf : Option Str) (pf : PriceFilter) (top_k : Nat)
        (cands : List (Nat × σ)) (r : Nat × Restaurant × σ),
      r ∈ assembleLoop meta db nf pf top_k [] cands →
      priceKeep pf r.2.1.price_level = true) ∧
    priceKeep (.pfList [1, 2]) (some 3) = false ∧
    priceKeep (.pfList [1, 2]) (some 2) = true ∧
    priceKeep (.pfList [1, 2]) none = false := by
  refine ⟨?_, rfl, ?_, rfl, ?_, by decide, by decide, rfl⟩
  · simp [priceKeep]
  · simp [priceKeep]
  · intro σ meta db nf pf top_k cands r hr
    rcases mem_assembleLoop meta db nf pf top_k cands [] r hr with h | h
    · exact absurd h (List.not_mem_nil r)
    · exact h.1

/-- Witness for C4: a concrete candidate with `price_level = 2` survives the
`[1,2]` list filter inside the assembler loop. -/
theorem c4_price_filter_witness :
    ((0, Restaurant.mk none (some 2), (0 : Int)) ∈
      assembleLoop (fun n => n) (fun _ => some (Restaurant.mk none (some 2)))
        none (.pfList [1, 2]) 1 [] [(0, (0 : Int))]) ∧
    priceKeep (.pfList [1, 2]) (Restaurant.mk none (some 2)).price_level
      = true := by
  have hmem : (0, Restaurant.mk none (some 2), (0 : Int)) ∈
      assembleLoop (fun n => n) (fun _ => some (Restaurant.mk none (some 2)))
        none (.pfList [1, 2]) 1 [] [(0, (0 : Int))] := by decide
  exact ⟨hmem,
    (c4_price_filter [1, 2] 0 0).2.2.2.2.1 (fun n => n)
      (fun _ => some (Restaurant.mk none (some 2))) none (.pfList [1, 2]) 1
      [(0, (0 : Int))] (0, Restaurant.mk none (some 2), (0 : Int)) hmem⟩

/-- C6 (failing-input evaluation): the multi-word cuisine phrase "dim sum"
is in the query booster's own keyword set and occurs verbatim in the query
"dim sum", yet the query-side Lexical Booster of `app/app.py` returns the
query unchanged — it only matches whitespace tokens, never phrases. The
index-builder booster of `generate_embeddings_final.py`, which does run the
phrase substring pass the claim describes, boosts the same text to three
occurrences. -/
theorem c6_query_booster_misses_phrases :
    "dim sum".toList ∈ CUISINE_KEYWORDS ∧
    isSubStr "dim sum".toList (toLowerStr "dim sum".toList) = true ∧
    boostQueryText (some "dim sum".toList) = "dim sum".toList ∧
    genBoostText "dim sum".toList = "dim sum dim sum dim sum".toList := by
  refine ⟨by decide, by decide, by decide, by decide⟩

end VibeCheck
